import Mathlib

/-!
Shallow embedding of the MOT ingestion pipeline (src/MOT/src/mot_ingestion).

External collaborators (BigQuery client, GCS, filesystem, hashing, the XLSX
converter, wall-clock time) are modelled by explicit oracle parameters:
a Bool for a registry read or insert that may fail, an `Except String`
value for each fallible external stage, a `Nat` for the wall-clock
timestamp.  The control flow of the Python code is translated directly.
-/

namespace MOT

/-! ## Registry data model (state.py) -/

/-- Processing status stored in the file registry. -/
inductive Status
  | SUCCESS
  | FAILED
deriving DecidableEq, Repr

/-- One immutable row of the `file_registry` table (state.py schema). -/
structure FileRecord where
  file_name : String
  checksum : String
  processed_at : Nat
  status : Status
  error_message : Option String
  row_count : Option Nat
deriving DecidableEq, Repr

/-- The registry table as an append-only list of rows. -/
abbrev Registry := List FileRecord

/-- Rows of the registry matching the SQL WHERE clause of
`FileRegistry.get_checksum`: same file name and status SUCCESS. -/
def successRecordsFor (reg : Registry) (name : String) : Registry :=
  reg.filter (fun r => r.file_name == name && r.status == Status.SUCCESS)

/-- Combining step of `ORDER BY processed_at DESC LIMIT 1`: keep the record
with the larger `processed_at`; on a tie the later row wins (a deterministic
resolution of the tie the SQL leaves open). -/
def newerOf (acc : Option FileRecord) (r : FileRecord) : Option FileRecord :=
  match acc with
  | none => some r
  | some b => if b.processed_at ≤ r.processed_at then some r else some b

/-- Result row of the `get_checksum` query: the SUCCESS record for `name`
with maximal `processed_at`, later rows winning ties. -/
def latestSuccess (reg : Registry) (name : String) : Option FileRecord :=
  (successRecordsFor reg name).foldl newerOf none

/-- `FileRegistry.get_checksum`: checksum of the most recent SUCCESS record,
`none` if there is none; any query failure (`readOk = false`) is caught and
also yields `none`. -/
def get_checksum (readOk : Bool) (reg : Registry) (name : String) : Option String :=
  if readOk then (latestSuccess reg name).map (fun r => r.checksum) else none

/-- The raw `client.insert_rows_json` call: appends the row, or fails when
the oracle says so. -/
def insert_rows_json (insertOk : Bool) (reg : Registry) (r : FileRecord) :
    Except String Registry :=
  if insertOk then Except.ok (reg ++ [r]) else Except.error "insert failed"

/-- `FileRegistry.record_processing`: builds the row with the current
timestamp and inserts it, catching and logging any insertion failure
(the registry is then left unchanged; nothing propagates). -/
def record_processing (insertOk : Bool) (now : Nat) (reg : Registry)
    (file_name checksum : String) (status : Status)
    (error_message : Option String) (row_count : Option Nat) : Registry :=
  let row : FileRecord :=
    { file_name := file_name, checksum := checksum, processed_at := now,
      status := status, error_message := error_message, row_count := row_count }
  match insert_rows_json insertOk reg row with
  | Except.ok reg2 => reg2
  | Except.error _ => reg

/-- `FileRegistry.should_process`: process when no stored checksum exists or
the stored checksum differs from the current one. -/
def should_process (readOk : Bool) (reg : Registry) (name checksum : String) : Bool :=
  match get_checksum readOk reg name with
  | none => true
  | some stored => if stored == checksum then false else true

/-! ## Pipeline orchestration (pipeline.py) -/

/-- External calls made while handling one file (used to state which calls
a given control path performs). -/
inductive Effect
  | checksumCalc
  | parseCall
  | normalizeCall
  | serializeCall
  | uploadCall
  | loadCall
  | registryInsert
deriving DecidableEq, Repr

/-- Oracle for the external behaviour of one candidate file during one run:
the outcome of the checksum computation, of each transform/load stage
(success payloads are the row counts the code threads through), and of the
registry read and insert for this file, plus the wall-clock timestamp used
for any registry row written for it. -/
structure FileBehavior where
  name : String
  checksumResult : Except String String
  parseResult : Except String Nat
  normalizeResult : Except String Nat
  serializeResult : Except String Unit
  uploadResult : Except String Unit
  loadResult : Except String Unit
  readOk : Bool
  insertOk : Bool
  now : Nat

/-- Result of `_process_file` as seen by the caller: the Python method
returns True (processed), returns False (skipped), or raises. -/
inductive PResult
  | processed
  | skipped
  | raised (msg : String)
deriving DecidableEq, Repr

/-- First error raised along the parse, normalize, serialize, upload,
load chain of `_process_file`, if any. -/
def stageError (fb : FileBehavior) : Option String :=
  match fb.parseResult with
  | Except.error e => some e
  | Except.ok _ =>
    match fb.normalizeResult with
    | Except.error e => some e
    | Except.ok _ =>
      match fb.serializeResult with
      | Except.error e => some e
      | Except.ok _ =>
        match fb.uploadResult with
        | Except.error e => some e
        | Except.ok _ =>
          match fb.loadResult with
          | Except.error e => some e
          | Except.ok _ => none

/-- `IngestionPipeline._process_file`: checksum (outside any try block),
idempotency gate, dry-run early return, then the guarded
parse → normalize → serialize → upload → load chain whose failures are
recorded as FAILED and re-raised, and whose success is recorded as
SUCCESS.  Returns the updated registry, the external calls made, and the
call result. -/
def process_file (dryRun : Bool) (reg : Registry) (fb : FileBehavior) :
    Registry × List Effect × PResult :=
  match fb.checksumResult with
  | Except.error e => (reg, [Effect.checksumCalc], PResult.raised e)
  | Except.ok checksum =>
    if should_process fb.readOk reg fb.name checksum = false then
      (reg, [Effect.checksumCalc], PResult.skipped)
    else if dryRun then
      (reg, [Effect.checksumCalc], PResult.processed)
    else
      match fb.parseResult with
      | Except.error e =>
        (record_processing fb.insertOk fb.now reg fb.name checksum Status.FAILED (some e) none,
         [Effect.checksumCalc, Effect.parseCall, Effect.registryInsert],
         PResult.raised e)
      | Except.ok _ =>
        match fb.normalizeResult with
        | Except.error e =>
          (record_processing fb.insertOk fb.now reg fb.name checksum Status.FAILED (some e) none,
           [Effect.checksumCalc, Effect.parseCall, Effect.normalizeCall, Effect.registryInsert],
           PResult.raised e)
        | Except.ok rowCount =>
          match fb.serializeResult with
          | Except.error e =>
            (record_processing fb.insertOk fb.now reg fb.name checksum Status.FAILED (some e) none,
             [Effect.checksumCalc, Effect.parseCall, Effect.normalizeCall,
              Effect.serializeCall, Effect.registryInsert],
             PResult.raised e)
          | Except.ok _ =>
            match fb.uploadResult with
            | Except.error e =>
              (record_processing fb.insertOk fb.now reg fb.name checksum Status.FAILED (some e) none,
               [Effect.checksumCalc, Effect.parseCall, Effect.normalizeCall,
                Effect.serializeCall, Effect.uploadCall, Effect.registryInsert],
               PResult.raised e)
            | Except.ok _ =>
              match fb.loadResult with
              | Except.error e =>
                (record_processing fb.insertOk fb.now reg fb.name checksum Status.FAILED (some e) none,
                 [Effect.checksumCalc, Effect.parseCall, Effect.normalizeCall,
                  Effect.serializeCall, Effect.uploadCall, Effect.loadCall,
                  Effect.registryInsert],
                 PResult.raised e)
              | Except.ok _ =>
                (record_processing fb.insertOk fb.now reg fb.name checksum Status.SUCCESS
                   none (some rowCount),
                 [Effect.checksumCalc, Effect.parseCall, Effect.normalizeCall,
                  Effect.serializeCall, Effect.uploadCall, Effect.loadCall,
                  Effect.registryInsert],
                 PResult.processed)

/-- Aggregate per-run counters of `IngestionPipeline.run`. -/
structure Counts where
  processed : Nat
  skipped : Nat
  failed : Nat
deriving DecidableEq, Repr

/-- The per-file loop of `IngestionPipeline.run`: `_process_file` inside a
try block; True increments processed, False skipped, an exception is caught,
increments failed, and the loop continues. -/
def runLoop (dryRun : Bool) (reg : Registry) (c : Counts) :
    List FileBehavior → Counts × Registry
  | [] => (c, reg)
  | fb :: rest =>
    match process_file dryRun reg fb with
    | (reg2, _, PResult.processed) =>
      runLoop dryRun reg2 { c with processed := c.processed + 1 } rest
    | (reg2, _, PResult.skipped) =>
      runLoop dryRun reg2 { c with skipped := c.skipped + 1 } rest
    | (reg2, _, PResult.raised _) =>
      runLoop dryRun reg2 { c with failed := c.failed + 1 } rest

/-- `IngestionPipeline.run`: setup (registry/table provisioning and
discovery, collapsed into the `setupOk` oracle; a failure there is caught
by the outer try block and yields exit code 2), early exit 0 on empty
discovery, then the per-file loop and the final exit code derived from the
failed count.  Returns exit code, counts, and final registry. -/
def run (setupOk dryRun : Bool) (reg : Registry) (files : List FileBehavior) :
    Nat × Counts × Registry :=
  if setupOk then
    match files with
    | [] => (0, ⟨0, 0, 0⟩, reg)
    | f :: fs =>
      let r := runLoop dryRun reg ⟨0, 0, 0⟩ (f :: fs)
      (if r.1.failed > 0 then 1 else 0, r.1, r.2)
  else (2, ⟨0, 0, 0⟩, reg)

/-! ## Schema normalization (schema.py, config.SchemaField)

Values are modelled with a closed variant type.  Python floats are
modelled exactly: `float(str)` parses the literal (optional sign, the
special values inf/infinity/nan, or decimal digits with optional single
underscores, fraction and exponent) and rounds the exact decimal value to
the nearest IEEE-754 binary64 value, ties to even, overflowing to
infinity; a finite double is carried as the exact rational it denotes. -/

/-- One field of the target schema (config.py `SchemaField`): a name and a
type tag string. -/
structure SchemaField where
  name : String
  type : String
deriving DecidableEq, Repr

/-- An IEEE-754 binary64 value as Python sees it: a finite value (kept as
the exact rational it denotes), an infinity, or nan. -/
inductive PyFloat
  | finite (q : Rat)
  | inf
  | neginf
  | nan
deriving DecidableEq, Repr

/-- A cell value after casting (`None` in Python is `vNull`). -/
inductive Value
  | vStr (s : String)
  | vInt (n : Int)
  | vFloat (f : PyFloat)
  | vBool (b : Bool)
  | vNull
deriving DecidableEq, Repr

/-- Numeric value of a list of decimal digit characters. -/
def digitsVal (cs : List Char) : Nat :=
  cs.foldl (fun a c => 10 * a + (c.toNat - 48)) 0

/-- Python `str.lower()`, character by character (the inputs of interest
are ASCII). -/
def lowerStr (s : String) : String :=
  String.mk (s.toList.map Char.toLower)

/-- Leading and trailing whitespace removal on the character list (the
whitespace stripping `float` performs on its argument). -/
def trimChars (cs : List Char) : List Char :=
  ((cs.dropWhile Char.isWhitespace).reverse.dropWhile Char.isWhitespace).reverse

/-- Continuation of a digit run after at least one consumed digit: more
digits, with single underscores allowed only between digits (PEP 515).
Returns the digits consumed (underscores removed) and the rest, or `none`
on a misplaced underscore. -/
def digitRunTail : List Char → Option (List Char × List Char)
  | [] => some ([], [])
  | '_' :: c :: cs =>
    if c.isDigit then (digitRunTail cs).map (fun p => (c :: p.1, p.2)) else none
  | ['_'] => none
  | c :: cs =>
    if c.isDigit then (digitRunTail cs).map (fun p => (c :: p.1, p.2))
    else some ([], c :: cs)

/-- A possibly empty digit run with PEP 515 underscores; fails only on a
misplaced underscore after a first digit. -/
def digitRun : List Char → Option (List Char × List Char)
  | [] => some ([], [])
  | c :: cs =>
    if c.isDigit then (digitRunTail cs).map (fun p => (c :: p.1, p.2))
    else some ([], c :: cs)

/-- Fractional part: a dot followed by a digit run, or nothing. -/
def fracPart : List Char → Option (List Char × List Char)
  | '.' :: rest => digitRun rest
  | cs => some ([], cs)

/-- After `e`/`E`: an optional sign and a non-empty digit run consuming the
whole remainder. -/
def expTail (cs : List Char) : Option (Bool × List Char) :=
  let p := match cs with
    | '-' :: rest => (true, rest)
    | '+' :: rest => (false, rest)
    | _ => (false, cs)
  match digitRun p.2 with
  | none => none
  | some (ds, rest) =>
    if ds.isEmpty || !rest.isEmpty then none else some (p.1, ds)

/-- Exponent part: absent (exponent zero), or `e`/`E` then sign and
digits. -/
def expPart : List Char → Option (Bool × List Char)
  | [] => some (false, [])
  | 'e' :: rest => expTail rest
  | 'E' :: rest => expTail rest
  | _ => none

/-- Binary length of a natural number, with explicit recursion fuel; the
callers pass fuel that exceeds the true bit length. -/
def bitLenAux : Nat → Nat → Nat
  | 0, _ => 0
  | fuel + 1, n => if n = 0 then 0 else bitLenAux fuel (n / 2) + 1

/-- Floor of the base-two logarithm of `n / d` (both positive). -/
def floorLog2 (fuel n d : Nat) : Int :=
  let L : Int := (bitLenAux fuel n : Int) - (bitLenAux fuel d : Int)
  if 0 ≤ L then (if d * 2 ^ L.toNat ≤ n then L else L - 1)
  else (if d ≤ n * 2 ^ (-L).toNat then L else L - 1)

/-- Round the positive rational `n / d` to the nearest integer, ties to
even. -/
def rheNum (n d : Nat) : Nat :=
  let q := n / d
  let r := n % d
  if d < 2 * r then q + 1
  else if 2 * r < d then q
  else q + q % 2

/-- IEEE-754 binary64 rounding (round to nearest, ties to even) of the
rational `n / d` (both positive) with the given sign: overflow to the
signed infinity above the largest finite double, gradual underflow below
the smallest normal one. -/
def roundSigned (fuel : Nat) (neg : Bool) (n d : Nat) : PyFloat :=
  let sgn : Nat → Int := fun m => if neg then -(m : Int) else (m : Int)
  let e := floorLog2 fuel n d
  if e < -1022 then
    PyFloat.finite (mkRat (sgn (rheNum (n * 2 ^ 1074) d)) (2 ^ 1074))
  else
    let s := (52 : Int) - e
    let m := if 0 ≤ s then rheNum (n * 2 ^ s.toNat) d else rheNum n (d * 2 ^ (-s).toNat)
    let me := if m = 2 ^ 53 then ((2 ^ 52 : Nat), e + 1) else (m, e)
    if 1023 < me.2 then (if neg then PyFloat.neginf else PyFloat.inf)
    else if 52 ≤ me.2 then PyFloat.finite (mkRat (sgn (me.1 * 2 ^ (me.2 - 52).toNat)) 1)
    else PyFloat.finite (mkRat (sgn me.1) (2 ^ ((52 : Int) - me.2).toNat))

/-- Python `float(value)`: strip whitespace, optional sign, the special
values inf/infinity/nan (case-insensitive), or a decimal literal rounded
to binary64.  `none` is `ValueError`.  The rounding fuel bounds the bit
lengths involved: numerator and denominator are below
`10 ^ (digits + exponent)` and `10 ^ k < 2 ^ (4 * k)`. -/
def parseFloat (s : String) : Option PyFloat :=
  let cs := trimChars s.toList
  let p := match cs with
    | '-' :: rest => (true, rest)
    | '+' :: rest => (false, rest)
    | _ => (false, cs)
  let low := p.2.map Char.toLower
  if low = "inf".toList || low = "infinity".toList then
    some (if p.1 then PyFloat.neginf else PyFloat.inf)
  else if low = "nan".toList then some PyFloat.nan
  else
    match digitRun p.2 with
    | none => none
    | some (ip, rest1) =>
      match fracPart rest1 with
      | none => none
      | some (fp, rest2) =>
        if ip.isEmpty && fp.isEmpty then none
        else
          match expPart rest2 with
          | none => none
          | some (eneg, ed) =>
            let ev := digitsVal ed
            let n0 := digitsVal (ip ++ fp)
            let nd := if eneg then (n0, 10 ^ fp.length * 10 ^ ev)
                      else (n0 * 10 ^ ev, 10 ^ fp.length)
            if nd.1 = 0 then some (PyFloat.finite 0)
            else some (roundSigned (4 * (ip.length + fp.length + ev) + 80) p.1 nd.1 nd.2)

/-- Python `int(...)` on a finite float value: truncation toward zero. -/
def ratTrunc (q : Rat) : Int :=
  q.num.tdiv (q.den : Int)

deriving instance DecidableEq for Except

/-- `SchemaNormalizer._cast_value`, exception behaviour included: the try
block catches ValueError and TypeError only.  `int(...)` of an infinite
float raises OverflowError, which is not caught and propagates
(`Except.error`); `int(nan)` raises ValueError, which is caught and
yields null, like a failed parse.  An unknown type tag passes the value
through. -/
def castValue (value : String) (targetType : String) : Except String Value :=
  if value = "" then Except.ok Value.vNull
  else if targetType = "STRING" then Except.ok (Value.vStr value)
  else if targetType = "INTEGER" then
    match parseFloat value with
    | some (PyFloat.finite q) => Except.ok (Value.vInt (ratTrunc q))
    | some PyFloat.inf =>
      Except.error "OverflowError: cannot convert float infinity to integer"
    | some PyFloat.neginf =>
      Except.error "OverflowError: cannot convert float infinity to integer"
    | some PyFloat.nan => Except.ok Value.vNull
    | none => Except.ok Value.vNull
  else if targetType = "FLOAT" then
    match parseFloat value with
    | some f => Except.ok (Value.vFloat f)
    | none => Except.ok Value.vNull
  else if targetType = "BOOLEAN" then
    Except.ok (Value.vBool (["true", "1", "yes", "y"].contains (lowerStr value)))
  else if targetType = "DATE" then Except.ok (Value.vStr value)
  else if targetType = "TIMESTAMP" then Except.ok (Value.vStr value)
  else Except.ok (Value.vStr value)

/-- A parsed input row: an insertion-ordered string-to-string dict. -/
abbrev RawRow := List (String × String)

/-- A normalized output row: an insertion-ordered string-to-Value dict. -/
abbrev NRow := List (String × Value)

/-- Python `row.get(key, "")` on a dict. -/
def dictGet (row : RawRow) (key : String) : String :=
  match row.find? (fun kv => kv.1 == key) with
  | some kv => kv.2
  | none => ""

/-- Python `row[key] = v` on a dict: overwrite in place if the key exists,
append otherwise. -/
def dictSet (row : NRow) (key : String) (v : Value) : NRow :=
  if row.any (fun kv => kv.1 == key) then
    row.map (fun kv => if kv.1 == key then (key, v) else kv)
  else row ++ [(key, v)]

/-- The per-field loop of `SchemaNormalizer.normalize`: cast each schema
field in order into the row dict (unknown input columns are never read,
which drops them; missing ones read as "" and cast to null); a raised cast
aborts the whole call. -/
def buildCells (schema : List SchemaField) (row : RawRow) (acc : NRow) :
    Except String NRow :=
  match schema with
  | [] => Except.ok acc
  | f :: fs =>
    match castValue (dictGet row f.name) f.type with
    | Except.error e => Except.error e
    | Except.ok v => buildCells fs row (dictSet acc f.name v)

/-- Per-row body of `SchemaNormalizer.normalize`: the schema columns, then
the three audit fields. -/
def normalizeRow (schema : List SchemaField) (row : RawRow)
    (source_file checksum ingest_ts : String) : Except String NRow :=
  match buildCells schema row [] with
  | Except.error e => Except.error e
  | Except.ok base =>
    Except.ok (dictSet (dictSet (dictSet base "source_file" (Value.vStr source_file))
      "checksum" (Value.vStr checksum)) "ingest_ts" (Value.vStr ingest_ts))

/-- The row loop of `SchemaNormalizer.normalize`: rows in order; an
exception raised in any row propagates out of the whole call. -/
def normalizeRows (schema : List SchemaField)
    (source_file checksum ingest_ts : String) :
    List RawRow → Except String (List NRow)
  | [] => Except.ok []
  | r :: rs =>
    match normalizeRow schema r source_file checksum ingest_ts with
    | Except.error e => Except.error e
    | Except.ok nr =>
      match normalizeRows schema source_file checksum ingest_ts rs with
      | Except.error e => Except.error e
      | Except.ok nrs => Except.ok (nr :: nrs)

/-- `SchemaNormalizer.normalize`: empty input returns the empty list;
otherwise the row loop runs.  `ingest_ts` is the externally supplied
wall-clock string `datetime.utcnow().isoformat()`. -/
def normalize (schema : List SchemaField) (data : List RawRow)
    (source_file checksum ingest_ts : String) : Except String (List NRow) :=
  match data with
  | [] => Except.ok []
  | _ :: _ => normalizeRows schema source_file checksum ingest_ts data

/-! ## File discovery (discovery.py) -/

/-- `fnmatch.fnmatch` on the pattern sublanguage the ignore patterns use:
`*` matches any (possibly empty) run of characters, `?` any single
character, anything else itself.  Structural on the pattern: `*` tries
every suffix of the name. -/
def fnmatchList : List Char → List Char → Bool
  | [], cs => cs.isEmpty
  | '*' :: ps, cs => (cs.tails).any (fun suffix => fnmatchList ps suffix)
  | '?' :: ps, cs =>
    match cs with
    | [] => false
    | _ :: cs2 => fnmatchList ps cs2
  | p :: ps, cs =>
    match cs with
    | [] => false
    | c :: cs2 => p == c && fnmatchList ps cs2

/-- `fnmatch.fnmatch(name, pattern)`. -/
def fnmatch (name pat : String) : Bool :=
  fnmatchList pat.toList name.toList

/-- Default ignore patterns of `FileDiscoverer.__init__`. -/
def defaultIgnorePatterns : List String :=
  ["~$*", ".~*", "*.tmp", "*.temp"]

/-- `FileDiscoverer._should_ignore`: the file's base name matches some
ignore pattern. -/
def should_ignore (ignorePatterns : List String) (name : String) : Bool :=
  ignorePatterns.any (fun pat => fnmatch name pat)

/-- One entry returned by `root_dir.glob(pattern)`: its path components
(the tuple of parts `pathlib` exposes) and whether it is a regular file. -/
structure FSEntry where
  parts : List String
  isFile : Bool
deriving DecidableEq, Repr

/-- `Path.name`: the final path component. -/
def pathName (e : FSEntry) : String :=
  e.parts.getLastD ""

/-- Strict lexicographic order on lists induced by a strict order on
elements. -/
def lexLT {α : Type} (lt : α → α → Bool) : List α → List α → Bool
  | _, [] => false
  | [], _ :: _ => true
  | a :: as, b :: bs =>
    if lt a b then true else if lt b a then false else lexLT lt as bs

/-- Code-point comparison of characters. -/
def charLT (a b : Char) : Bool := decide (a < b)

/-- Python `<` on strings: lexicographic by code point. -/
def strLT (a b : String) : Bool := lexLT charLT a.toList b.toList

/-- Python `<` on `pathlib` paths, as `sorted` uses it: lexicographic on
the tuples of path components. -/
def partsLT (x y : List String) : Bool := lexLT strLT x y

/-- `FileDiscoverer.discover`: empty when the root is missing; otherwise
keep the glob results that are regular files and not ignored, and return
their component lists sorted in path order. -/
def discover (rootExists : Bool) (globResults : List FSEntry)
    (ignorePatterns : List String) : List (List String) :=
  if rootExists then
    let kept := (globResults.filter (fun e => e.isFile)).filter
      (fun e => !(should_ignore ignorePatterns (pathName e)))
    List.insertionSort (fun x y : List String => partsLT y x = false)
      (kept.map (fun e => e.parts))
  else []

/-! ## Concrete instances used to exercise the model -/

/-- A file whose every external call succeeds. -/
def fbOkA : FileBehavior :=
  ⟨"a.xlsx", Except.ok "ca", Except.ok 5, Except.ok 5,
   Except.ok (), Except.ok (), Except.ok (), true, true, 1⟩

/-- A file whose normalization stage throws. -/
def fbNormFail : FileBehavior :=
  ⟨"b.xlsx", Except.ok "cb", Except.ok 5, Except.error "normalize boom",
   Except.ok (), Except.ok (), Except.ok (), true, true, 2⟩

/-- A second file whose every external call succeeds. -/
def fbOkC : FileBehavior :=
  ⟨"c.xlsx", Except.ok "cc", Except.ok 5, Except.ok 5,
   Except.ok (), Except.ok (), Except.ok (), true, true, 3⟩

/-- A file whose checksum computation throws. -/
def fbCkFail : FileBehavior :=
  ⟨"broken.xlsx", Except.error "cannot read", Except.ok 0, Except.ok 0,
   Except.ok (), Except.ok (), Except.ok (), true, true, 1⟩

/-- The two-column target schema of the normalization example. -/
def exSchema : List SchemaField :=
  [⟨"A", "INTEGER"⟩, ⟨"B", "BOOLEAN"⟩]

/-- A one-column INTEGER schema for the overflow counterexample. -/
def intSchema : List SchemaField :=
  [⟨"A", "INTEGER"⟩]

/-! ## Registry lemmas -/

theorem foldl_newerOf_isSome (l : List FileRecord) (b : FileRecord) :
    (l.foldl newerOf (some b)).isSome = true := by
  induction l generalizing b with
  | nil => rfl
  | cons x xs ih =>
    simp only [List.foldl_cons, newerOf]
    split
    · exact ih x
    · exact ih b

theorem latestSuccess_eq_none (reg : Registry) (name : String) :
    latestSuccess reg name = none ↔ successRecordsFor reg name = [] := by
  unfold latestSuccess
  cases h : successRecordsFor reg name with
  | nil => simp
  | cons x xs =>
    simp only [List.foldl_cons]
    constructor
    · intro hn
      have hn' : List.foldl newerOf (some x) xs = none := hn
      have hs := foldl_newerOf_isSome xs x
      rw [hn'] at hs
      cases hs
    · intro hc
      cases hc

theorem foldl_newerOf_spec (l : List FileRecord) :
    ∀ (acc : Option FileRecord) (r : FileRecord),
      l.foldl newerOf acc = some r →
      (acc = some r ∨ r ∈ l) ∧
      (∀ b, acc = some b → b.processed_at ≤ r.processed_at) ∧
      (∀ x ∈ l, x.processed_at ≤ r.processed_at) := by
  induction l with
  | nil =>
    intro acc r h
    simp only [List.foldl_nil] at h
    refine ⟨Or.inl h, fun b hb => ?_, by simp⟩
    rw [h] at hb
    cases hb
    exact le_refl _
  | cons x xs ih =>
    intro acc r h
    simp only [List.foldl_cons] at h
    obtain ⟨hmem, hacc, hall⟩ := ih (newerOf acc x) r h
    cases acc with
    | none =>
      have hx : x.processed_at ≤ r.processed_at := hacc x rfl
      refine ⟨?_, ?_, ?_⟩
      · rcases hmem with h' | h'
        · obtain rfl : x = r := Option.some.inj h'
          exact Or.inr (List.mem_cons_self _ _)
        · exact Or.inr (List.mem_cons_of_mem _ h')
      · intro b hb
        cases hb
      · intro y hy
        rcases List.mem_cons.mp hy with rfl | hy'
        · exact hx
        · exact hall y hy'
    | some b =>
      by_cases hba : b.processed_at ≤ x.processed_at
      · have hstep : newerOf (some b) x = some x := by simp [newerOf, hba]
        rw [hstep] at hmem hacc
        have hx : x.processed_at ≤ r.processed_at := hacc x rfl
        refine ⟨?_, ?_, ?_⟩
        · rcases hmem with h' | h'
          · cases h'
            exact Or.inr (List.mem_cons_self _ _)
          · exact Or.inr (List.mem_cons_of_mem _ h')
        · intro b' hb'
          cases hb'
          exact le_trans hba hx
        · intro y hy
          rcases List.mem_cons.mp hy with rfl | hy'
          · exact hx
          · exact hall y hy'
      · have hstep : newerOf (some b) x = some b := by simp [newerOf, hba]
        rw [hstep] at hmem hacc
        have hb : b.processed_at ≤ r.processed_at := hacc b rfl
        refine ⟨?_, ?_, ?_⟩
        · rcases hmem with h' | h'
          · exact Or.inl h'
          · exact Or.inr (List.mem_cons_of_mem _ h')
        · intro b' hb'
          cases hb'
          exact hb
        · intro y hy
          rcases List.mem_cons.mp hy with rfl | hy'
          · exact le_trans (le_of_not_le hba) hb
          · exact hall y hy'

theorem mem_successRecordsFor (reg : Registry) (name : String) (r : FileRecord) :
    r ∈ successRecordsFor reg name ↔
      r ∈ reg ∧ r.file_name = name ∧ r.status = Status.SUCCESS := by
  simp [successRecordsFor, List.mem_filter, and_assoc]

theorem latestSuccess_spec (reg : Registry) (name : String) (r : FileRecord)
    (h : latestSuccess reg name = some r) :
    r ∈ reg ∧ r.file_name = name ∧ r.status = Status.SUCCESS ∧
      ∀ x ∈ reg, x.file_name = name → x.status = Status.SUCCESS →
        x.processed_at ≤ r.processed_at := by
  unfold latestSuccess at h
  obtain ⟨hmem, -, hall⟩ := foldl_newerOf_spec _ _ _ h
  rcases hmem with h' | hmem
  · cases h'
  · obtain ⟨hr, hn, hs⟩ := (mem_successRecordsFor reg name r).mp hmem
    refine ⟨hr, hn, hs, fun x hx hxn hxs => ?_⟩
    exact hall x ((mem_successRecordsFor reg name x).mpr ⟨hx, hxn, hxs⟩)

theorem successRecordsFor_append (reg : Registry) (name : String) (row : FileRecord)
    (hname : row.file_name = name) (hst : row.status = Status.SUCCESS) :
    successRecordsFor (reg ++ [row]) name = successRecordsFor reg name ++ [row] := by
  simp [successRecordsFor, List.filter_append, hname, hst]

theorem latestSuccess_append_success (reg : Registry) (name : String) (row : FileRecord)
    (hname : row.file_name = name) (hst : row.status = Status.SUCCESS)
    (hle : ∀ x ∈ reg, x.processed_at ≤ row.processed_at) :
    latestSuccess (reg ++ [row]) name = some row := by
  unfold latestSuccess
  rw [successRecordsFor_append reg name row hname hst, List.foldl_append]
  cases h : (successRecordsFor reg name).foldl newerOf none with
  | none => rfl
  | some b =>
    have hb := latestSuccess_spec reg name b h
    simp [newerOf, hle b hb.1]

/-! ## Claim theorems -/

/-- C1: with working registry reads, `should_process` returns true iff no
SUCCESS record exists for the name or the most recent SUCCESS record's
stored fingerprint differs from the current one; and immediately after a
SUCCESS record with the current fingerprint is written (at a timestamp no
earlier than every existing record's), a second evaluation with the same
fingerprint returns false. -/
theorem C1_should_process_gate :
    ∀ (reg : Registry) (name ck : String),
      (should_process true reg name ck = true ↔
        (∀ r ∈ reg, ¬(r.file_name = name ∧ r.status = Status.SUCCESS)) ∨
        (∃ r, latestSuccess reg name = some r ∧ r.checksum ≠ ck)) ∧
      (∀ (now : Nat) (rc : Option Nat),
        (∀ r ∈ reg, r.processed_at ≤ now) →
        should_process true
          (record_processing true now reg name ck Status.SUCCESS none rc) name ck = false) := by
  intro reg name ck
  constructor
  · cases h : latestSuccess reg name with
    | none =>
      have hnone : ∀ r ∈ reg, ¬(r.file_name = name ∧ r.status = Status.SUCCESS) := by
        have := (latestSuccess_eq_none reg name).mp h
        intro r hr hcontra
        have : r ∈ successRecordsFor reg name :=
          (mem_successRecordsFor reg name r).mpr ⟨hr, hcontra.1, hcontra.2⟩
        simp_all
      have hsp : should_process true reg name ck = true := by
        simp [should_process, get_checksum, h]
      rw [hsp]
      exact iff_of_true rfl (Or.inl hnone)
    | some r =>
      by_cases hc : r.checksum = ck
      · have hfalse : should_process true reg name ck = false := by
          simp [should_process, get_checksum, h, hc]
        rw [hfalse]
        obtain ⟨hr, hn, hs, -⟩ := latestSuccess_spec reg name r h
        refine iff_of_false (by simp) ?_
        intro hcontra
        rcases hcontra with hall | ⟨r', hr', hne⟩
        · exact hall r hr ⟨hn, hs⟩
        · obtain rfl : r = r' := Option.some.inj hr'
          exact hne hc
      · have htrue : should_process true reg name ck = true := by
          simp [should_process, get_checksum, h, hc]
        rw [htrue]
        exact iff_of_true rfl (Or.inr ⟨r, rfl, hc⟩)
  · intro now rc hle
    have hrec : record_processing true now reg name ck Status.SUCCESS none rc =
        reg ++ [⟨name, ck, now, Status.SUCCESS, none, rc⟩] := rfl
    rw [hrec]
    have hl : latestSuccess (reg ++ [⟨name, ck, now, Status.SUCCESS, none, rc⟩]) name =
        some ⟨name, ck, now, Status.SUCCESS, none, rc⟩ :=
      latestSuccess_append_success reg name _ rfl rfl hle
    simp [should_process, get_checksum, hl]

/-- C1 witness: writing a SUCCESS record for a fresh registry makes the
second `should_process` evaluation with the same fingerprint return false. -/
theorem C1_should_process_gate_witness :
    should_process true
      (record_processing true 5 [] "report.xlsx" "abc" Status.SUCCESS none (some 3))
      "report.xlsx" "abc" = false :=
  (C1_should_process_gate [] "report.xlsx" "abc").2 5 (some 3) (by simp)

/-- C5: `get_checksum` returns none on a query failure (it never raises),
returns none with working reads iff no SUCCESS record exists for the name,
and with working reads any returned checksum is the checksum of a SUCCESS
record for the name whose `processed_at` is maximal among them. -/
theorem C5_get_checksum_spec :
    (∀ (reg : Registry) (name : String), get_checksum false reg name = none) ∧
    (∀ (reg : Registry) (name : String),
      (get_checksum true reg name = none ↔
        ∀ r ∈ reg, ¬(r.file_name = name ∧ r.status = Status.SUCCESS))) ∧
    (∀ (reg : Registry) (name c : String),
      get_checksum true reg name = some c →
      ∃ r ∈ reg, r.file_name = name ∧ r.status = Status.SUCCESS ∧ r.checksum = c ∧
        ∀ x ∈ reg, x.file_name = name → x.status = Status.SUCCESS →
          x.processed_at ≤ r.processed_at) := by
  refine ⟨fun reg name => rfl, ?_, ?_⟩
  · intro reg name
    rw [show get_checksum true reg name = (latestSuccess reg name).map (fun r => r.checksum)
        from rfl, Option.map_eq_none', latestSuccess_eq_none]
    unfold successRecordsFor
    rw [List.filter_eq_nil_iff]
    constructor
    · intro h r hr hc
      exact h r hr (by simp [hc.1, hc.2])
    · intro h r hr hc
      simp only [Bool.and_eq_true, beq_iff_eq] at hc
      exact h r hr hc
  · intro reg name c h
    rw [show get_checksum true reg name = (latestSuccess reg name).map (fun r => r.checksum)
        from rfl, Option.map_eq_some'] at h
    obtain ⟨r, hr, hcv⟩ := h
    obtain ⟨hmem, hn, hs, hmax⟩ := latestSuccess_spec reg name r hr
    exact ⟨r, hmem, hn, hs, hcv, hmax⟩

/-- C5 witness: on a registry holding two SUCCESS records for the same
name, `get_checksum` returns the checksum of the later one. -/
theorem C5_get_checksum_spec_witness :
    ∃ r ∈ ([⟨"f.xlsx", "c1", 1, Status.SUCCESS, none, some 2⟩,
            ⟨"f.xlsx", "c2", 4, Status.SUCCESS, none, some 2⟩] : Registry),
      r.file_name = "f.xlsx" ∧ r.status = Status.SUCCESS ∧ r.checksum = "c2" ∧
        ∀ x ∈ ([⟨"f.xlsx", "c1", 1, Status.SUCCESS, none, some 2⟩,
                ⟨"f.xlsx", "c2", 4, Status.SUCCESS, none, some 2⟩] : Registry),
          x.file_name = "f.xlsx" → x.status = Status.SUCCESS →
            x.processed_at ≤ r.processed_at :=
  C5_get_checksum_spec.2.2
    [⟨"f.xlsx", "c1", 1, Status.SUCCESS, none, some 2⟩,
     ⟨"f.xlsx", "c2", 4, Status.SUCCESS, none, some 2⟩] "f.xlsx" "c2" (by decide)

/-- C6: `record_processing` is total — it either appends the one built row
or, when the underlying insert call fails, leaves the registry unchanged;
the insert failure is swallowed, never propagated. -/
theorem C6_record_outcome_never_raises :
    ∀ (insertOk : Bool) (now : Nat) (reg : Registry) (name ck : String)
      (st : Status) (err : Option String) (rc : Option Nat),
      (record_processing insertOk now reg name ck st err rc =
          reg ++ [⟨name, ck, now, st, err, rc⟩] ∨
        record_processing insertOk now reg name ck st err rc = reg) ∧
      (∀ e, insert_rows_json insertOk reg ⟨name, ck, now, st, err, rc⟩ = Except.error e →
        record_processing insertOk now reg name ck st err rc = reg) := by
  intro insertOk now reg name ck st err rc
  cases insertOk with
  | true =>
    refine ⟨Or.inl rfl, ?_⟩
    intro e he
    simp [insert_rows_json] at he
  | false => exact ⟨Or.inr rfl, fun e _ => rfl⟩

/-- C6 witness: a failing insert leaves the registry unchanged and raises
nothing. -/
theorem C6_record_outcome_never_raises_witness :
    record_processing false 7 [] "f.xlsx" "abc" Status.FAILED (some "boom") none = [] :=
  (C6_record_outcome_never_raises false 7 [] "f.xlsx" "abc" Status.FAILED
    (some "boom") none).2 "insert failed" rfl

/-! ## Pipeline lemmas -/

theorem runLoop_sum (dry : Bool) :
    ∀ (files : List FileBehavior) (reg : Registry) (c : Counts),
      (runLoop dry reg c files).1.processed + (runLoop dry reg c files).1.skipped +
        (runLoop dry reg c files).1.failed =
      c.processed + c.skipped + c.failed + files.length := by
  intro files
  induction files with
  | nil =>
    intro reg c
    simp [runLoop]
  | cons fb rest ih =>
    intro reg c
    rcases hpf : process_file dry reg fb with ⟨reg2, fx, res⟩
    cases res with
    | processed =>
      simp only [runLoop, hpf, List.length_cons]
      rw [ih]
      simp only []
      omega
    | skipped =>
      simp only [runLoop, hpf, List.length_cons]
      rw [ih]
      simp only []
      omega
    | raised msg =>
      simp only [runLoop, hpf, List.length_cons]
      rw [ih]
      simp only []
      omega

theorem run_cons_eq (dry : Bool) (reg : Registry) (f : FileBehavior)
    (fs : List FileBehavior) :
    run true dry reg (f :: fs) =
      (if (runLoop dry reg ⟨0, 0, 0⟩ (f :: fs)).1.failed > 0 then 1 else 0,
       (runLoop dry reg ⟨0, 0, 0⟩ (f :: fs)).1,
       (runLoop dry reg ⟨0, 0, 0⟩ (f :: fs)).2) := rfl

/-- C3: a setup failure aborts with exit code 2; empty discovery yields exit
code 0 with all counts zero; otherwise the exit code is 0 exactly when no
file failed and 1 exactly when at least one did; and the three counters
always partition the discovered files. -/
theorem C3_exit_codes :
    (∀ (dry : Bool) (reg : Registry) (files : List FileBehavior),
      (run false dry reg files).1 = 2) ∧
    (∀ (dry : Bool) (reg : Registry),
      run true dry reg [] = (0, ⟨0, 0, 0⟩, reg)) ∧
    (∀ (dry : Bool) (reg : Registry) (files : List FileBehavior),
      ((run true dry reg files).1 = 0 ↔ (run true dry reg files).2.1.failed = 0) ∧
      ((run true dry reg files).1 = 1 ↔ 0 < (run true dry reg files).2.1.failed)) ∧
    (∀ (dry : Bool) (reg : Registry) (files : List FileBehavior),
      (run true dry reg files).2.1.processed + (run true dry reg files).2.1.skipped +
        (run true dry reg files).2.1.failed = files.length) := by
  refine ⟨fun dry reg files => by simp [run], fun dry reg => rfl, ?_, ?_⟩
  · intro dry reg files
    cases files with
    | nil => simp [run]
    | cons f fs =>
      simp only [run_cons_eq]
      cases h : (runLoop dry reg ⟨0, 0, 0⟩ (f :: fs)).1.failed with
      | zero => simp [h]
      | succ n => simp [h]
  · intro dry reg files
    cases files with
    | nil => simp [run]
    | cons f fs =>
      simp only [run_cons_eq]
      simpa using runLoop_sum dry (f :: fs) reg ⟨0, 0, 0⟩

/-- C2: a failure raised at the parse, normalize, serialize, upload or load
stage is caught, appends a FAILED record carrying the error message,
increments the failed count, and the loop continues with the remaining
files; concretely, over three files where only the second throws during
normalization, the run records one FAILED and two SUCCESS outcomes and
exits with code 1. -/
theorem C2_stage_failure_isolated :
    (∀ (reg : Registry) (fb : FileBehavior) (ck e : String)
        (rest : List FileBehavior) (c : Counts),
      fb.checksumResult = Except.ok ck →
      should_process fb.readOk reg fb.name ck = true →
      fb.insertOk = true →
      stageError fb = some e →
      (process_file false reg fb).1 =
          reg ++ [⟨fb.name, ck, fb.now, Status.FAILED, some e, none⟩] ∧
      (process_file false reg fb).2.2 = PResult.raised e ∧
      runLoop false reg c (fb :: rest) =
        runLoop false (reg ++ [⟨fb.name, ck, fb.now, Status.FAILED, some e, none⟩])
          { c with failed := c.failed + 1 } rest) ∧
    run true false [] [fbOkA, fbNormFail, fbOkC] =
      (1, ⟨2, 0, 1⟩,
        [⟨"a.xlsx", "ca", 1, Status.SUCCESS, none, some 5⟩,
         ⟨"b.xlsx", "cb", 2, Status.FAILED, some "normalize boom", none⟩,
         ⟨"c.xlsx", "cc", 3, Status.SUCCESS, none, some 5⟩]) := by
  constructor
  · intro reg fb ck e rest c hck hsp hio hse
    obtain ⟨nm, cr, pr, nr, sr, ur, lr, ro, io, now⟩ := fb
    dsimp only at hck hsp hio hse ⊢
    subst hck hio
    rcases pr with e1 | v1
    · simp only [stageError] at hse
      obtain rfl : e1 = e := Option.some.inj hse
      refine ⟨?_, ?_, ?_⟩ <;>
        simp [process_file, runLoop, hsp, record_processing, insert_rows_json]
    · rcases nr with e2 | v2
      · simp only [stageError] at hse
        obtain rfl : e2 = e := Option.some.inj hse
        refine ⟨?_, ?_, ?_⟩ <;>
          simp [process_file, runLoop, hsp, record_processing, insert_rows_json]
      · rcases sr with e3 | v3
        · simp only [stageError] at hse
          obtain rfl : e3 = e := Option.some.inj hse
          refine ⟨?_, ?_, ?_⟩ <;>
            simp [process_file, runLoop, hsp, record_processing, insert_rows_json]
        · rcases ur with e4 | v4
          · simp only [stageError] at hse
            obtain rfl : e4 = e := Option.some.inj hse
            refine ⟨?_, ?_, ?_⟩ <;>
              simp [process_file, runLoop, hsp, record_processing, insert_rows_json]
          · rcases lr with e5 | v5
            · simp only [stageError] at hse
              obtain rfl : e5 = e := Option.some.inj hse
              refine ⟨?_, ?_, ?_⟩ <;>
                simp [process_file, runLoop, hsp, record_processing, insert_rows_json]
            · simp [stageError] at hse
  · decide

/-- C2 witness: the general stage-failure clause instantiated at the
normalization failure of the middle file, starting from the registry left
by the first file. -/
theorem C2_stage_failure_isolated_witness :
    (process_file false [⟨"a.xlsx", "ca", 1, Status.SUCCESS, none, some 5⟩] fbNormFail).1 =
        [⟨"a.xlsx", "ca", 1, Status.SUCCESS, none, some 5⟩] ++
          [⟨"b.xlsx", "cb", 2, Status.FAILED, some "normalize boom", none⟩] ∧
    (process_file false [⟨"a.xlsx", "ca", 1, Status.SUCCESS, none, some 5⟩] fbNormFail).2.2 =
        PResult.raised "normalize boom" ∧
    runLoop false [⟨"a.xlsx", "ca", 1, Status.SUCCESS, none, some 5⟩] ⟨1, 0, 0⟩
        [fbNormFail, fbOkC] =
      runLoop false
        ([⟨"a.xlsx", "ca", 1, Status.SUCCESS, none, some 5⟩] ++
          [⟨"b.xlsx", "cb", 2, Status.FAILED, some "normalize boom", none⟩])
        ⟨1, 0, 0 + 1⟩ [fbOkC] :=
  C2_stage_failure_isolated.1 [⟨"a.xlsx", "ca", 1, Status.SUCCESS, none, some 5⟩]
    fbNormFail "cb" "normalize boom" [fbOkC] ⟨1, 0, 0⟩ rfl (by decide) rfl rfl

/-- C4 counterexample to the claim as stated: for a file whose checksum
computation throws, the failure is counted and the run continues, but the
registry receives no FAILED entry at all (it stays empty), because the
checksum call sits outside the try block that records failures. -/
theorem C4_counterexample :
    (run true false [] [fbCkFail]).2.1.failed = 1 ∧
    (run true false [] [fbCkFail]).2.2 = [] := by
  decide

/-- C4 amended: a checksum failure propagates out of `_process_file`
untouched — no registry write happens and the registry is unchanged — and
the run loop catches it, counts the failure, and continues with the next
file. -/
theorem C4_checksum_failure_isolated :
    ∀ (dry : Bool) (reg : Registry) (fb : FileBehavior) (e : String)
      (rest : List FileBehavior) (c : Counts),
      fb.checksumResult = Except.error e →
      process_file dry reg fb = (reg, [Effect.checksumCalc], PResult.raised e) ∧
      runLoop dry reg c (fb :: rest) =
        runLoop dry reg { c with failed := c.failed + 1 } rest := by
  intro dry reg fb e rest c hck
  obtain ⟨nm, cr, pr, nr, sr, ur, lr, ro, io, now⟩ := fb
  dsimp only at hck ⊢
  subst hck
  exact ⟨rfl, rfl⟩

/-- C4 amended witness: the checksum-failure clause at a concrete file. -/
theorem C4_checksum_failure_isolated_witness :
    process_file false [] fbCkFail = ([], [Effect.checksumCalc], PResult.raised "cannot read") ∧
    runLoop false [] ⟨0, 0, 0⟩ [fbCkFail] = runLoop false [] ⟨0, 0, 0 + 1⟩ [] :=
  C4_checksum_failure_isolated false [] fbCkFail "cannot read" [] ⟨0, 0, 0⟩ rfl

/-- C7: in dry-run mode a file passing the `should_process` gate is counted
as processed while no parse, serialize, upload, load or registry-insert
call happens and the registry is unchanged. -/
theorem C7_dry_run_frame :
    ∀ (reg : Registry) (fb : FileBehavior) (ck : String)
      (rest : List FileBehavior) (c : Counts),
      fb.checksumResult = Except.ok ck →
      should_process fb.readOk reg fb.name ck = true →
      (process_file true reg fb).1 = reg ∧
      (process_file true reg fb).2.2 = PResult.processed ∧
      Effect.parseCall ∉ (process_file true reg fb).2.1 ∧
      Effect.serializeCall ∉ (process_file true reg fb).2.1 ∧
      Effect.uploadCall ∉ (process_file true reg fb).2.1 ∧
      Effect.loadCall ∉ (process_file true reg fb).2.1 ∧
      Effect.registryInsert ∉ (process_file true reg fb).2.1 ∧
      runLoop true reg c (fb :: rest) =
        runLoop true reg { c with processed := c.processed + 1 } rest := by
  intro reg fb ck rest c hck hsp
  obtain ⟨nm, cr, pr, nr, sr, ur, lr, ro, io, now⟩ := fb
  dsimp only at hck hsp ⊢
  subst hck
  have hpf : process_file true reg ⟨nm, Except.ok ck, pr, nr, sr, ur, lr, ro, io, now⟩ =
      (reg, [Effect.checksumCalc], PResult.processed) := by
    simp [process_file, hsp]
  refine ⟨?_, ?_, ?_, ?_, ?_, ?_, ?_, ?_⟩ <;>
    simp [hpf, runLoop]

/-- C7 witness: the dry-run clause at a concrete file over the empty
registry. -/
theorem C7_dry_run_frame_witness :
    (process_file true [] fbOkA).1 = [] ∧
    (process_file true [] fbOkA).2.2 = PResult.processed ∧
    Effect.parseCall ∉ (process_file true [] fbOkA).2.1 ∧
    Effect.serializeCall ∉ (process_file true [] fbOkA).2.1 ∧
    Effect.uploadCall ∉ (process_file true [] fbOkA).2.1 ∧
    Effect.loadCall ∉ (process_file true [] fbOkA).2.1 ∧
    Effect.registryInsert ∉ (process_file true [] fbOkA).2.1 ∧
    runLoop true [] ⟨0, 0, 0⟩ [fbOkA] = runLoop true [] ⟨0 + 1, 0, 0⟩ [] :=
  C7_dry_run_frame [] fbOkA "ca" [] ⟨0, 0, 0⟩ rfl (by decide)

/-! ## Normalization lemmas -/

theorem dictSet_absent (l : NRow) (k : String) (v : Value)
    (h : k ∉ l.map Prod.fst) : dictSet l k v = l ++ [(k, v)] := by
  unfold dictSet
  have hany : l.any (fun kv => kv.1 == k) = false := by
    rw [List.any_eq_false]
    intro kv hkv
    simp only [beq_iff_eq]
    intro hk
    exact h (hk ▸ List.mem_map_of_mem Prod.fst hkv)
  rw [hany]
  simp

theorem buildCells_keys (row : RawRow) :
    ∀ (schema : List SchemaField) (acc out : NRow),
      buildCells schema row acc = Except.ok out →
      (schema.map SchemaField.name).Nodup →
      (∀ f ∈ schema, f.name ∉ acc.map Prod.fst) →
      out.map Prod.fst = acc.map Prod.fst ++ schema.map SchemaField.name := by
  intro schema
  induction schema with
  | nil =>
    intro acc out h _ _
    simp only [buildCells] at h
    obtain rfl : acc = out := Except.ok.inj h
    simp
  | cons f fs ih =>
    intro acc out h hnd hnotin
    cases hc : castValue (dictGet row f.name) f.type with
    | error e => simp [buildCells, hc] at h
    | ok v =>
      simp only [buildCells, hc] at h
      have hfacc : f.name ∉ acc.map Prod.fst := hnotin f (List.mem_cons_self _ _)
      rw [dictSet_absent acc f.name v hfacc] at h
      have hnd2 : (∀ x ∈ fs, ¬x.name = f.name) ∧ (fs.map SchemaField.name).Nodup := by
        simpa using hnd
      have hnotin' : ∀ g ∈ fs, g.name ∉ (acc ++ [(f.name, v)]).map Prod.fst := by
        intro g hg
        simp only [List.map_append, List.mem_append, List.map_cons, List.map_nil,
          List.mem_singleton, not_or]
        exact ⟨hnotin g (List.mem_cons_of_mem _ hg), hnd2.1 g hg⟩
      have hkeys := ih (acc ++ [(f.name, v)]) out h hnd2.2 hnotin'
      simpa [List.append_assoc] using hkeys

theorem normalizeRow_keys (schema : List SchemaField) (row : RawRow)
    (src ck ts : String) (nr : NRow)
    (h : normalizeRow schema row src ck ts = Except.ok nr)
    (hnd : (schema.map SchemaField.name).Nodup)
    (h1 : "source_file" ∉ schema.map SchemaField.name)
    (h2 : "checksum" ∉ schema.map SchemaField.name)
    (h3 : "ingest_ts" ∉ schema.map SchemaField.name) :
    nr.map Prod.fst =
      schema.map SchemaField.name ++ ["source_file", "checksum", "ingest_ts"] := by
  cases hb : buildCells schema row [] with
  | error e => simp [normalizeRow, hb] at h
  | ok base =>
    simp only [normalizeRow, hb] at h
    have hkeys : base.map Prod.fst = schema.map SchemaField.name := by
      simpa using buildCells_keys row schema [] base hb hnd (by simp)
    have s1 : dictSet base "source_file" (Value.vStr src) =
        base ++ [("source_file", Value.vStr src)] :=
      dictSet_absent _ _ _ (by rw [hkeys]; exact h1)
    have k1 : (base ++ [("source_file", Value.vStr src)]).map Prod.fst =
        schema.map SchemaField.name ++ ["source_file"] := by
      simp [hkeys]
    have s2 : dictSet (base ++ [("source_file", Value.vStr src)]) "checksum"
        (Value.vStr ck) =
        base ++ [("source_file", Value.vStr src)] ++ [("checksum", Value.vStr ck)] :=
      dictSet_absent _ _ _ (by rw [k1]; simp [h2])
    have k2 : (base ++ [("source_file", Value.vStr src)] ++
        [("checksum", Value.vStr ck)]).map Prod.fst =
        schema.map SchemaField.name ++ ["source_file", "checksum"] := by
      simp [hkeys]
    have s3 : dictSet (base ++ [("source_file", Value.vStr src)] ++
        [("checksum", Value.vStr ck)]) "ingest_ts" (Value.vStr ts) =
        base ++ [("source_file", Value.vStr src)] ++ [("checksum", Value.vStr ck)] ++
          [("ingest_ts", Value.vStr ts)] :=
      dictSet_absent _ _ _ (by rw [k2]; simp [h3])
    obtain rfl : _ = nr := Except.ok.inj h
    rw [s1, s2, s3]
    simp [hkeys]

theorem normalizeRows_spec (schema : List SchemaField) (src ck ts : String)
    (hnd : (schema.map SchemaField.name).Nodup)
    (h1 : "source_file" ∉ schema.map SchemaField.name)
    (h2 : "checksum" ∉ schema.map SchemaField.name)
    (h3 : "ingest_ts" ∉ schema.map SchemaField.name) :
    ∀ (rows : List RawRow) (out : List NRow),
      normalizeRows schema src ck ts rows = Except.ok out →
      out.length = rows.length ∧
      ∀ row ∈ out, row.map Prod.fst =
        schema.map SchemaField.name ++ ["source_file", "checksum", "ingest_ts"] := by
  intro rows
  induction rows with
  | nil =>
    intro out h
    simp only [normalizeRows] at h
    obtain rfl : ([] : List NRow) = out := Except.ok.inj h
    simp
  | cons r rs ih =>
    intro out h
    cases hr : normalizeRow schema r src ck ts with
    | error e => simp [normalizeRows, hr] at h
    | ok nr =>
      cases hrs : normalizeRows schema src ck ts rs with
      | error e => simp [normalizeRows, hr, hrs] at h
      | ok nrs =>
        simp only [normalizeRows, hr, hrs] at h
        obtain rfl : nr :: nrs = out := Except.ok.inj h
        obtain ⟨hlen, hkeys⟩ := ih nrs hrs
        refine ⟨by simp [hlen], ?_⟩
        intro row hrow
        rcases List.mem_cons.mp hrow with rfl | hrow'
        · exact normalizeRow_keys schema r src ck ts row hr hnd h1 h2 h3
        · exact hkeys row hrow'

/-- C10 counterexample to the claim as stated: an INTEGER cell that parses
to an infinite float makes the whole normalize call raise OverflowError,
so for this input list normalize produces no output rows at all instead of
one output row per input row. -/
theorem C10_counterexample :
    normalize intSchema [[("A", "inf")]] "f.xlsx" "ck" "ts" =
      Except.error "OverflowError: cannot convert float infinity to integer" := by
  decide

/-- C10 amended: whenever normalize returns (no cell cast raises), it
returns exactly one output row per input row, and every output row's keys
are exactly the schema's column names followed by the three audit keys
(for schemas whose names are distinct and disjoint from the audit names) —
unknown input columns never survive. -/
theorem C10_normalize_shape :
    ∀ (schema : List SchemaField) (src ck ts : String) (data : List RawRow)
      (out : List NRow),
      (schema.map SchemaField.name).Nodup →
      "source_file" ∉ schema.map SchemaField.name →
      "checksum" ∉ schema.map SchemaField.name →
      "ingest_ts" ∉ schema.map SchemaField.name →
      normalize schema data src ck ts = Except.ok out →
      out.length = data.length ∧
      ∀ row ∈ out, row.map Prod.fst =
        schema.map SchemaField.name ++ ["source_file", "checksum", "ingest_ts"] := by
  intro schema src ck ts data out hnd h1 h2 h3 h
  cases data with
  | nil =>
    simp only [normalize] at h
    obtain rfl : ([] : List NRow) = out := Except.ok.inj h
    simp
  | cons r rs =>
    exact normalizeRows_spec schema src ck ts hnd h1 h2 h3 (r :: rs) out h

/-- C10 amended witness: the shape clause at a concrete schema and a row
carrying an unknown column. -/
theorem C10_normalize_shape_witness :
    ([[("A", Value.vInt 3), ("B", Value.vNull),
       ("source_file", Value.vStr "f.xlsx"), ("checksum", Value.vStr "ck"),
       ("ingest_ts", Value.vStr "ts")]] : List NRow).length = 1 ∧
    ∀ row ∈ ([[("A", Value.vInt 3), ("B", Value.vNull),
       ("source_file", Value.vStr "f.xlsx"), ("checksum", Value.vStr "ck"),
       ("ingest_ts", Value.vStr "ts")]] : List NRow),
      row.map Prod.fst =
        exSchema.map SchemaField.name ++ ["source_file", "checksum", "ingest_ts"] :=
  C10_normalize_shape exSchema "f.xlsx" "ck" "ts" [[("A", "3.7"), ("X", "junk")]]
    [[("A", Value.vInt 3), ("B", Value.vNull),
      ("source_file", Value.vStr "f.xlsx"), ("checksum", Value.vStr "ck"),
      ("ingest_ts", Value.vStr "ts")]]
    (by decide) (by decide) (by decide) (by decide) (by decide)

set_option maxRecDepth 8192 in
/-- C8 counterexample to the claim as stated ("empty or unparseable values
become null and never raise"): "inf" and "1e400" parse to an infinite
double, and the INTEGER cast then raises OverflowError — which Python's
`except (ValueError, TypeError)` does not catch — instead of returning. -/
theorem C8_counterexample :
    castValue "inf" "INTEGER" =
        Except.error "OverflowError: cannot convert float infinity to integer" ∧
    castValue "1e400" "INTEGER" =
        Except.error "OverflowError: cannot convert float infinity to integer" := by
  decide

/-- C8 amended: casts per target type — empty values are null for every
type; a non-empty value failing the float parse is null for INTEGER and
FLOAT without raising; a value parsing to a finite double is truncated
toward zero for INTEGER and kept for FLOAT; a value parsing to nan is null
for INTEGER (the ValueError from `int(nan)` is caught) and nan for FLOAT;
a value parsing to an infinity (inf itself or an overflow such as 1e400)
raises OverflowError for INTEGER, which propagates uncaught, and passes
through for FLOAT; BOOLEAN is case-insensitive membership in true/1/yes/y;
DATE and TIMESTAMP pass the string through; and the two spec example rows
normalize to the stated values plus three non-null audit fields. -/
theorem C8_value_casting :
    (∀ t, castValue "" t = Except.ok Value.vNull) ∧
    (∀ v, v ≠ "" → parseFloat v = none →
      castValue v "INTEGER" = Except.ok Value.vNull ∧
      castValue v "FLOAT" = Except.ok Value.vNull) ∧
    (∀ v q, v ≠ "" → parseFloat v = some (PyFloat.finite q) →
      castValue v "INTEGER" = Except.ok (Value.vInt (ratTrunc q)) ∧
      castValue v "FLOAT" = Except.ok (Value.vFloat (PyFloat.finite q))) ∧
    (∀ v, v ≠ "" → parseFloat v = some PyFloat.nan →
      castValue v "INTEGER" = Except.ok Value.vNull ∧
      castValue v "FLOAT" = Except.ok (Value.vFloat PyFloat.nan)) ∧
    (∀ v f, v ≠ "" → parseFloat v = some f →
      (f = PyFloat.inf ∨ f = PyFloat.neginf) →
      castValue v "INTEGER" =
        Except.error "OverflowError: cannot convert float infinity to integer" ∧
      castValue v "FLOAT" = Except.ok (Value.vFloat f)) ∧
    (∀ v, v ≠ "" →
      (castValue v "BOOLEAN" = Except.ok (Value.vBool true) ↔
        lowerStr v ∈ ["true", "1", "yes", "y"]) ∧
      (∃ b, castValue v "BOOLEAN" = Except.ok (Value.vBool b))) ∧
    (∀ v, v ≠ "" →
      castValue v "DATE" = Except.ok (Value.vStr v) ∧
      castValue v "TIMESTAMP" = Except.ok (Value.vStr v)) ∧
    normalize exSchema [[("A", "3.7"), ("B", "yes")]] "f.xlsx" "ck" "ts" =
      Except.ok [[("A", Value.vInt 3), ("B", Value.vBool true),
        ("source_file", Value.vStr "f.xlsx"), ("checksum", Value.vStr "ck"),
        ("ingest_ts", Value.vStr "ts")]] ∧
    normalize exSchema [[("A", ""), ("B", "")]] "f.xlsx" "ck" "ts" =
      Except.ok [[("A", Value.vNull), ("B", Value.vNull),
        ("source_file", Value.vStr "f.xlsx"), ("checksum", Value.vStr "ck"),
        ("ingest_ts", Value.vStr "ts")]] := by
  refine ⟨?_, ?_, ?_, ?_, ?_, ?_, ?_, by decide, by decide⟩
  · intro t
    simp [castValue]
  · intro v hv hp
    constructor <;> simp [castValue, hv, hp]
  · intro v q hv hp
    constructor <;> simp [castValue, hv, hp]
  · intro v hv hp
    constructor <;> simp [castValue, hv, hp]
  · intro v f hv hp hinf
    rcases hinf with rfl | rfl <;> constructor <;> simp [castValue, hv, hp]
  · intro v hv
    constructor
    · simp [castValue, hv]
    · exact ⟨["true", "1", "yes", "y"].contains (lowerStr v), by simp [castValue, hv]⟩
  · intro v hv
    constructor <;> simp [castValue, hv]

/-- C8 amended witness: the finite-double clause at "3.7", whose binary64
value is 8331659310635418 / 2^51. -/
theorem C8_value_casting_witness :
    castValue "3.7" "INTEGER" =
        Except.ok (Value.vInt (ratTrunc (mkRat 8331659310635418 2251799813685248))) ∧
    castValue "3.7" "FLOAT" =
        Except.ok (Value.vFloat (PyFloat.finite (mkRat 8331659310635418 2251799813685248))) :=
  C8_value_casting.2.2.1 "3.7" (mkRat 8331659310635418 2251799813685248)
    (by decide) (by decide)

/-! ## Discovery lemmas -/

theorem lexLT_asymm {α : Type} (lt : α → α → Bool)
    (ha : ∀ a b, lt a b = true → lt b a = false) :
    ∀ x y, lexLT lt x y = true → lexLT lt y x = false := by
  intro x
  induction x with
  | nil =>
    intro y h
    cases y with
    | nil => simp [lexLT] at h
    | cons b bs => simp [lexLT]
  | cons a as ih =>
    intro y h
    cases y with
    | nil => simp [lexLT] at h
    | cons b bs =>
      simp only [lexLT] at h ⊢
      cases hab : lt a b with
      | true =>
        have hba := ha a b hab
        simp [hab, hba]
      | false =>
        cases hba : lt b a with
        | true => simp [hab, hba] at h
        | false =>
          simp only [hab, hba, Bool.false_eq_true, if_false] at h ⊢
          exact ih bs h

theorem lexLT_trans {α : Type} (lt : α → α → Bool)
    (ht : ∀ a b c, lt a b = true → lt b c = true → lt a c = true)
    (hc : ∀ a b, lt a b = false → lt b a = false → a = b) :
    ∀ x y z, lexLT lt x y = true → lexLT lt y z = true → lexLT lt x z = true := by
  intro x
  induction x with
  | nil =>
    intro y z hxy hyz
    cases y with
    | nil => simp [lexLT] at hxy
    | cons b bs =>
      cases z with
      | nil => simp [lexLT] at hyz
      | cons c cs => simp [lexLT]
  | cons a as ih =>
    intro y z hxy hyz
    cases y with
    | nil => simp [lexLT] at hxy
    | cons b bs =>
      cases z with
      | nil => simp [lexLT] at hyz
      | cons c cs =>
        simp only [lexLT] at hxy hyz ⊢
        cases hab : lt a b with
        | true =>
          cases hbc : lt b c with
          | true => simp [ht a b c hab hbc]
          | false =>
            cases hcb : lt c b with
            | true => simp [hbc, hcb] at hyz
            | false =>
              have hbeq : b = c := hc b c hbc hcb
              rw [← hbeq]
              simp [hab]
        | false =>
          cases hba : lt b a with
          | true => simp [hab, hba] at hxy
          | false =>
            have haeq : a = b := hc a b hab hba
            subst haeq
            cases hbc : lt a c with
            | true => simp [hbc]
            | false =>
              cases hcb : lt c a with
              | true => simp [hbc, hcb] at hyz
              | false =>
                simp only [hab, hbc, hcb, Bool.false_eq_true, if_false] at hxy hyz ⊢
                exact ih bs cs hxy hyz

theorem lexLT_connex {α : Type} (lt : α → α → Bool)
    (hc : ∀ a b, lt a b = false → lt b a = false → a = b) :
    ∀ x y, lexLT lt x y = false → lexLT lt y x = false → x = y := by
  intro x
  induction x with
  | nil =>
    intro y hxy hyx
    cases y with
    | nil => rfl
    | cons b bs => simp [lexLT] at hxy
  | cons a as ih =>
    intro y hxy hyx
    cases y with
    | nil => simp [lexLT] at hyx
    | cons b bs =>
      simp only [lexLT] at hxy hyx
      cases hab : lt a b with
      | true => simp [hab] at hxy
      | false =>
        cases hba : lt b a with
        | true => simp [hab, hba] at hyx
        | false =>
          simp only [hab, hba, Bool.false_eq_true, if_false] at hxy hyx
          have hae : a = b := hc a b hab hba
          rw [hae, ih bs hxy hyx]

theorem charLT_asymm : ∀ a b : Char, charLT a b = true → charLT b a = false := by
  intro a b h
  simp only [charLT, decide_eq_true_eq] at h
  simp only [charLT, decide_eq_false_iff_not]
  exact lt_asymm h

theorem charLT_trans :
    ∀ a b c : Char, charLT a b = true → charLT b c = true → charLT a c = true := by
  intro a b c h1 h2
  simp only [charLT, decide_eq_true_eq] at h1 h2 ⊢
  exact lt_trans h1 h2

theorem charLT_connex : ∀ a b : Char, charLT a b = false → charLT b a = false → a = b := by
  intro a b h1 h2
  simp only [charLT, decide_eq_false_iff_not] at h1 h2
  exact le_antisymm (le_of_not_lt h2) (le_of_not_lt h1)

theorem strLT_asymm : ∀ a b : String, strLT a b = true → strLT b a = false :=
  fun a b => lexLT_asymm charLT charLT_asymm a.toList b.toList

theorem strLT_trans :
    ∀ a b c : String, strLT a b = true → strLT b c = true → strLT a c = true :=
  fun a b c => lexLT_trans charLT charLT_trans charLT_connex a.toList b.toList c.toList

theorem strLT_connex : ∀ a b : String, strLT a b = false → strLT b a = false → a = b := by
  intro a b h1 h2
  have h := lexLT_connex charLT charLT_connex a.toList b.toList h1 h2
  exact String.ext h

theorem partsLE_total : ∀ x y : List String, partsLT y x = false ∨ partsLT x y = false := by
  intro x y
  cases h : partsLT y x with
  | false => exact Or.inl rfl
  | true => exact Or.inr (lexLT_asymm strLT strLT_asymm y x h)

theorem partsLE_trans : ∀ x y z : List String,
    partsLT y x = false → partsLT z y = false → partsLT z x = false := by
  intro x y z hyx hzy
  cases hzx : partsLT z x with
  | false => rfl
  | true =>
    cases hxy : partsLT x y with
    | true =>
      have h2 : partsLT z y = true :=
        lexLT_trans strLT strLT_trans strLT_connex z x y hzx hxy
      rw [h2] at hzy
      cases hzy
    | false =>
      have hxeq : x = y := lexLT_connex strLT strLT_connex x y hxy hyx
      rw [hxeq] at hzx
      rw [hzx] at hzy
      cases hzy

/-- C9: discovery returns the kept entries sorted the way `sorted` orders
paths — lexicographically on the tuples of path components; a component
list is discovered iff some glob result is a regular file with those
components whose base name matches no ignore pattern; with the default
ignore patterns `~$report.xlsx` is excluded while `report.xlsx` is kept;
and nested paths order component-wise, `r/a/b.xlsx` before `r/a-b.xlsx`. -/
theorem C9_discovery :
    (∀ (gs : List FSEntry) (pats : List String),
      List.Sorted (fun x y : List String => partsLT y x = false)
        (discover true gs pats)) ∧
    (∀ (gs : List FSEntry) (pats : List String) (ps : List String),
      ps ∈ discover true gs pats ↔
        ∃ e ∈ gs, e.parts = ps ∧ e.isFile = true ∧
          should_ignore pats (pathName e) = false) ∧
    discover true
      [⟨["input", "report.xlsx"], true⟩, ⟨["input", "~$report.xlsx"], true⟩]
      defaultIgnorePatterns = [["input", "report.xlsx"]] ∧
    discover true
      [⟨["r", "a-b.xlsx"], true⟩, ⟨["r", "a", "b.xlsx"], true⟩]
      defaultIgnorePatterns = [["r", "a", "b.xlsx"], ["r", "a-b.xlsx"]] := by
  refine ⟨?_, ?_, by decide, by decide⟩
  · intro gs pats
    haveI : IsTotal (List String) (fun x y : List String => partsLT y x = false) :=
      ⟨partsLE_total⟩
    haveI : IsTrans (List String) (fun x y : List String => partsLT y x = false) :=
      ⟨partsLE_trans⟩
    simp only [discover, if_true]
    exact List.sorted_insertionSort _ _
  · intro gs pats ps
    simp only [discover, if_true, List.mem_insertionSort, List.mem_map, List.mem_filter,
      Bool.not_eq_true']
    constructor
    · rintro ⟨e, ⟨⟨hg, hf⟩, hi⟩, rfl⟩
      exact ⟨e, hg, rfl, hf, hi⟩
    · rintro ⟨e, hg, rfl, hf, hi⟩
      exact ⟨e, ⟨⟨hg, hf⟩, hi⟩, rfl⟩

end MOT
